import Mathlib

/-!
Verification of the serverStick matchmaking / battle-session server.

The definitions below are a shallow embedding of the socket server in
the repository (matchmaking queue, battle directory, message handlers)
and of the persistence gateway in src/utils/database.ts.  The battle
directory is a JavaScript object, embedded as an association list with
in-place update semantics; socket identifiers, user identifiers and the
opaque appearance payloads are strings.
-/

namespace ServerStick

/-- One entry of the matchmaking queue (source: matchmakingQueue element type). -/
structure QueueEntry where
  userId : String
  username : String
  socketId : String
  appearance : String
  deriving DecidableEq

/-- One player slot of a battle (source: player1 / player2 field type). -/
structure Player where
  userId : String
  username : String
  socketId : String
  appearance : String
  wins : Nat
  deriving DecidableEq

/-- A battle session (source: battles record value type). -/
structure Battle where
  battleId : String
  code : String
  player1 : Player
  player2 : Option Player
  started : Bool
  deriving DecidableEq

/-- The battles object: insertion-ordered key/value pairs, as a JS object. -/
abbrev Directory := List (String × Battle)

/-- Key lookup in the battles object. -/
def dirGet (m : Directory) (k : String) : Option Battle :=
  (m.find? (fun p => p.1 == k)).map (fun p => p.2)

/-- Key assignment in the battles object: replaces in place when the key is
present (JS objects keep the original insertion position), appends otherwise. -/
def dirSet (m : Directory) (k : String) (v : Battle) : Directory :=
  if m.any (fun p => p.1 == k) then
    m.map (fun p => if p.1 == k then (k, v) else p)
  else m ++ [(k, v)]

/-- Key deletion in the battles object. -/
def dirDel (m : Directory) (k : String) : Directory :=
  m.filter (fun p => p.1 != k)

/-- Whole server state: matchmakingQueue and battles. -/
structure ServerState where
  matchmakingQueue : List QueueEntry
  battles : Directory
  deriving DecidableEq

/-- The inspected part of a relayed battle message: the gameOver flag and
syncData.winner (0 encodes an absent or falsy winner), plus the opaque rest. -/
structure BattleMsg where
  gameOver : Bool
  winner : Nat
  payload : String
  deriving DecidableEq

/-- Server-initiated events.  queueUpdate with target none is the broadcast
io.emit; with target some s it is the reply to one socket. -/
inductive OutEvent where
  | queueUpdate (target : Option String) (queue : List QueueEntry)
  | matchFound (target : String) (battleId opponentName opponentAppearance : String)
  | battleCodeGenerated (target : String) (code : String)
  | errorMsg (target : String) (error : String)
  | battleWinState (target : String) (player1Wins player2Wins : Nat)
  | battleMessage (target : String) (m : BattleMsg) (senderId : String)
  | opponentDisconnected (target : String)
  | pong (target : String)
  deriving DecidableEq

/-- Inbound client messages.  joinQueue carries the battleId and code that
randomUUID and generateBattleCode would produce if pairing fires. -/
inductive ClientMsg where
  | joinQueue (userId username appearance newBattleId newCode : String)
  | leaveQueue (userId : String)
  | getQueue
  | createBattle (battleId userId username appearance : String)
  | joinBattle (battleId userId username appearance : String)
  | sendBattleMessage (battleId userId : String) (m : BattleMsg)
  | leaveBattle (battleId userId : String)
  | ping
  deriving DecidableEq

/-- message.username with the falsy default: empty stands for a missing name. -/
def orAnonymous (username : String) : String :=
  if username == "" then "Anonymous" else username

/-- processMatchmaking: with at least two queued players, shift the two
oldest, store a started battle under a fresh id, and notify both. -/
def processMatchmaking (newBattleId newCode : String) (st : ServerState) :
    ServerState × List OutEvent :=
  match st.matchmakingQueue with
  | player1 :: player2 :: rest =>
      let b : Battle :=
        { battleId := newBattleId
          code := newCode
          player1 := { userId := player1.userId, username := player1.username,
                       socketId := player1.socketId, appearance := player1.appearance,
                       wins := 0 }
          player2 := some { userId := player2.userId, username := player2.username,
                            socketId := player2.socketId, appearance := player2.appearance,
                            wins := 0 }
          started := true }
      ({ matchmakingQueue := rest, battles := dirSet st.battles newBattleId b },
       [OutEvent.matchFound player1.socketId newBattleId player2.username player2.appearance,
        OutEvent.matchFound player2.socketId newBattleId player1.username player1.appearance,
        OutEvent.queueUpdate none rest])
  | _ => (st, [])

/-- JOIN_QUEUE: drop any entry with the same userId, append the new entry,
broadcast the queue, then attempt pairing. -/
def handleJoinQueue (sock userId username appearance newBattleId newCode : String)
    (st : ServerState) : ServerState × List OutEvent :=
  let playerInfo : QueueEntry :=
    { userId := userId, username := orAnonymous username,
      socketId := sock, appearance := appearance }
  let q := (st.matchmakingQueue.filter (fun p => p.userId != userId)) ++ [playerInfo]
  let st1 : ServerState := { st with matchmakingQueue := q }
  let r := processMatchmaking newBattleId newCode st1
  (r.1, OutEvent.queueUpdate none q :: r.2)

/-- LEAVE_QUEUE: remove the user's entry and broadcast. -/
def handleLeaveQueue (userId : String) (st : ServerState) : ServerState × List OutEvent :=
  let q := st.matchmakingQueue.filter (fun p => p.userId != userId)
  ({ st with matchmakingQueue := q }, [OutEvent.queueUpdate none q])

/-- GET_QUEUE: reply the current queue to the sender only. -/
def handleGetQueue (sock : String) (st : ServerState) : ServerState × List OutEvent :=
  (st, [OutEvent.queueUpdate (some sock) st.matchmakingQueue])

/-- CREATE_BATTLE: store an unstarted battle under the caller-supplied
battleId, which is also used as the join code. -/
def handleCreateBattle (sock battleId userId username appearance : String)
    (st : ServerState) : ServerState × List OutEvent :=
  let b : Battle :=
    { battleId := battleId
      code := battleId
      player1 := { userId := userId, username := orAnonymous username,
                   socketId := sock, appearance := appearance, wins := 0 }
      player2 := none
      started := false }
  ({ st with battles := dirSet st.battles battleId b },
   [OutEvent.battleCodeGenerated sock battleId])

/-- The JOIN_BATTLE lookup condition: same battleId and not yet started. -/
def joinPred (battleId : String) (b : Battle) : Bool :=
  b.battleId == battleId && !b.started

/-- In-place mutation of the first object satisfying a condition, as the JS
find-then-mutate does on the shared battle reference. -/
def updFirst (pred : Battle → Bool) (f : Battle → Battle) : Directory → Directory
  | [] => []
  | (k, b) :: rest =>
      if pred b then (k, f b) :: rest else (k, b) :: updFirst pred f rest

/-- JOIN_BATTLE: find an unstarted battle with the given id, fill player2,
set started, notify both sockets; otherwise a single combined error. -/
def handleJoinBattle (sock battleId userId username appearance : String)
    (st : ServerState) : ServerState × List OutEvent :=
  match (st.battles.map (fun p => p.2)).find? (joinPred battleId) with
  | none => (st, [OutEvent.errorMsg sock "Invalid battle code or battle already started"])
  | some b =>
      let p2 : Player :=
        { userId := userId, username := orAnonymous username,
          socketId := sock, appearance := appearance, wins := 0 }
      let battles2 :=
        updFirst (joinPred battleId)
          (fun bb => { bb with player2 := some p2, started := true }) st.battles
      ({ st with battles := battles2 },
       [OutEvent.matchFound b.player1.socketId b.battleId p2.username p2.appearance,
        OutEvent.matchFound sock b.battleId b.player1.username b.player1.appearance])

/-- The win-count update of the SEND_BATTLE_MESSAGE handler. -/
def creditWins (userId : String) (m : BattleMsg) (b : Battle) : Battle :=
  if m.gameOver && m.winner != 0 then
    if m.winner == 1 && userId == b.player1.userId then
      { b with player1 := { b.player1 with wins := b.player1.wins + 1 } }
    else if m.winner == 2 &&
        (match b.player2 with | some p => userId == p.userId | none => false) then
      match b.player2 with
      | some p => { b with player2 := some { p with wins := p.wins + 1 } }
      | none => b
    else b
  else b

/-- SEND_BATTLE_MESSAGE: win bookkeeping on a game-over report, win-state
broadcast to both slots, then relay of the payload to the opponent. -/
def handleSendBattleMessage (sock battleId userId : String) (m : BattleMsg)
    (st : ServerState) : ServerState × List OutEvent :=
  match dirGet st.battles battleId with
  | none => (st, [OutEvent.errorMsg sock "Battle not found"])
  | some battle =>
      let battle2 := creditWins userId m battle
      let winEvents :=
        if m.gameOver && m.winner != 0 then
          OutEvent.battleWinState battle2.player1.socketId battle2.player1.wins
              (match battle2.player2 with | some p => p.wins | none => 0) ::
          (match battle2.player2 with
           | some p => [OutEvent.battleWinState p.socketId battle2.player1.wins p.wins]
           | none => [])
        else []
      let recipient : Option String :=
        if battle2.player1.userId == userId then
          battle2.player2.map (fun p => p.socketId)
        else if (match battle2.player2 with | some p => p.userId == userId | none => false) then
          some battle2.player1.socketId
        else none
      let relayEvents :=
        match recipient with
        | some r => [OutEvent.battleMessage r m userId]
        | none => []
      ({ st with battles := dirSet st.battles battleId battle2 }, winEvents ++ relayEvents)

/-- LEAVE_BATTLE: when the battle exists, notify the leaver's opponent (when
identifiable) and delete the battle; otherwise do nothing. -/
def handleLeaveBattle (battleId userId : String) (st : ServerState) :
    ServerState × List OutEvent :=
  match dirGet st.battles battleId with
  | none => (st, [])
  | some b =>
      let opponentSocketId : Option String :=
        if b.player1.userId == userId then b.player2.map (fun p => p.socketId)
        else if (match b.player2 with | some p => p.userId == userId | none => false) then
          some b.player1.socketId
        else none
      let evs :=
        match opponentSocketId with
        | some s => [OutEvent.opponentDisconnected s]
        | none => []
      ({ st with battles := dirDel st.battles battleId }, evs)

/-- Whether a battle references the disconnecting socket in either slot. -/
def battleHitBySock (sock : String) (b : Battle) : Bool :=
  b.player1.socketId == sock ||
    (match b.player2 with | some p => p.socketId == sock | none => false)

/-- The OPPONENT_DISCONNECTED notifications the disconnect handler emits
while sweeping the battles object. -/
def disconnectBattleEvents (sock : String) : Directory → List OutEvent
  | [] => []
  | (_, b) :: rest =>
      (if b.player1.socketId == sock then
         (match b.player2 with
          | some p => [OutEvent.opponentDisconnected p.socketId]
          | none => [])
       else if (match b.player2 with | some p => p.socketId == sock | none => false) then
         [OutEvent.opponentDisconnected b.player1.socketId]
       else []) ++ disconnectBattleEvents sock rest

/-- The disconnect handler: drop the socket's queue entry (broadcasting when
one existed) and delete every battle referencing the socket. -/
def handleDisconnect (sock : String) (st : ServerState) : ServerState × List OutEvent :=
  let hadQueued := st.matchmakingQueue.any (fun p => p.socketId == sock)
  let q :=
    if hadQueued then st.matchmakingQueue.filter (fun p => p.socketId != sock)
    else st.matchmakingQueue
  let qEvents := if hadQueued then [OutEvent.queueUpdate none q] else []
  ({ matchmakingQueue := q,
     battles := st.battles.filter (fun p => !battleHitBySock sock p.2) },
   qEvents ++ disconnectBattleEvents sock st.battles)

/-- Dispatch of one inbound message, as the switch of the message handler. -/
def handleMessage (sock : String) (msg : ClientMsg) (st : ServerState) :
    ServerState × List OutEvent :=
  match msg with
  | .joinQueue userId username appearance nbid ncode =>
      handleJoinQueue sock userId username appearance nbid ncode st
  | .leaveQueue userId => handleLeaveQueue userId st
  | .getQueue => handleGetQueue sock st
  | .createBattle battleId userId username appearance =>
      handleCreateBattle sock battleId userId username appearance st
  | .joinBattle battleId userId username appearance =>
      handleJoinBattle sock battleId userId username appearance st
  | .sendBattleMessage battleId userId m =>
      handleSendBattleMessage sock battleId userId m st
  | .leaveBattle battleId userId => handleLeaveBattle battleId userId st
  | .ping => (st, [OutEvent.pong sock])

/-- One observable server event: an inbound message on some socket, a socket
disconnect, or the periodic matchmaking timer tick. -/
inductive Event where
  | msg (sock : String) (m : ClientMsg)
  | disconnect (sock : String)
  | tick (newBattleId newCode : String)
  deriving DecidableEq

/-- One step of the server. -/
def stepEv : Event → ServerState → ServerState × List OutEvent
  | .msg sock m, st => handleMessage sock m st
  | .disconnect sock, st => handleDisconnect sock st
  | .tick nbid ncode, st => processMatchmaking nbid ncode st

/-- The state at process start: empty queue, empty battles object. -/
def initialState : ServerState := { matchmakingQueue := [], battles := [] }

/-- Running a sequence of events from a given state. -/
def runFrom (st : ServerState) : List Event → ServerState
  | [] => st
  | e :: rest => runFrom (stepEv e st).1 rest

/-- A state the server can actually be in. -/
def Reachable (st : ServerState) : Prop :=
  ∃ evs : List Event, runFrom initialState evs = st

end ServerStick

namespace ServerStick.Db

/-!
The persistence gateway (src/utils/database.ts).  The battles table is a
list of rows; recordBattle JSON.stringify-s the moves array into the TEXT
column and getRecentBattles JSON.parse-s it back.  The JSON functions below
follow the JSON grammar for an array of strings, the only shape this
gateway ever encodes; insignificant whitespace is not produced by
JSON.stringify and therefore not modelled, and a parse failure (where
JSON.parse would throw) is none.
-/

/-- The lowercase hex digit JSON.stringify uses in control-char escapes. -/
def hexDigit (n : Nat) : Char :=
  if n < 10 then Char.ofNat (48 + n) else Char.ofNat (87 + n)

/-- JSON.stringify escaping of one character of a string literal. -/
def escapeChar (c : Char) : List Char :=
  if c = '"' then ['\\', '"']
  else if c = '\\' then ['\\', '\\']
  else if c = Char.ofNat 8 then ['\\', 'b']
  else if c = Char.ofNat 12 then ['\\', 'f']
  else if c = '\n' then ['\\', 'n']
  else if c = Char.ofNat 13 then ['\\', 'r']
  else if c = '\t' then ['\\', 't']
  else if c.toNat < 32 then
    ['\\', 'u', '0', '0', hexDigit (c.toNat / 16), hexDigit (c.toNat % 16)]
  else [c]

/-- Escaped body of a JSON string literal. -/
def escapeData (s : List Char) : List Char :=
  (s.map escapeChar).flatten

/-- A JSON string literal, quotes included. -/
def encodeString (s : String) : List Char :=
  '"' :: (escapeData s.data ++ ['"'])

/-- Comma-separated elements of a nonempty JSON array, closing bracket included. -/
def encodeElems : String → List String → List Char
  | m, [] => encodeString m ++ [']']
  | m, m2 :: ms => encodeString m ++ (',' :: encodeElems m2 ms)

/-- The characters JSON.stringify produces for an array of strings. -/
def encodeMovesChars : List String → List Char
  | [] => ['[', ']']
  | m :: ms => '[' :: encodeElems m ms

/-- JSON.stringify on an array of strings. -/
def jsonStringifyMoves (moves : List String) : String :=
  String.mk (encodeMovesChars moves)

/-- Value of a hex digit, either case. -/
def parseHex (c : Char) : Option Nat :=
  if 48 ≤ c.toNat ∧ c.toNat ≤ 57 then some (c.toNat - 48)
  else if 97 ≤ c.toNat ∧ c.toNat ≤ 102 then some (c.toNat - 87)
  else if 65 ≤ c.toNat ∧ c.toNat ≤ 70 then some (c.toNat - 55)
  else none

/-- The character named by a single-letter JSON escape. -/
def unescape (c : Char) : Option Char :=
  if c = '"' then some '"'
  else if c = '\\' then some '\\'
  else if c = '/' then some '/'
  else if c = 'b' then some (Char.ofNat 8)
  else if c = 'f' then some (Char.ofNat 12)
  else if c = 'n' then some '\n'
  else if c = 'r' then some (Char.ofNat 13)
  else if c = 't' then some '\t'
  else none

/-- Parse the remainder of a JSON string literal (the opening quote already
consumed): the decoded characters and the input after the closing quote.
Lone-surrogate escapes, which no Lean Char can carry, are rejected. -/
def parseJString : List Char → Option (List Char × List Char)
  | [] => none
  | c :: cs =>
    if c = '"' then some ([], cs)
    else if c = '\\' then
      match cs with
      | [] => none
      | d :: cs2 =>
        if d = 'u' then
          match cs2 with
          | h1 :: h2 :: h3 :: h4 :: cs3 =>
            match parseHex h1, parseHex h2, parseHex h3, parseHex h4 with
            | some n1, some n2, some n3, some n4 =>
              let n := ((n1 * 16 + n2) * 16 + n3) * 16 + n4
              if n < 55296 ∨ 57344 ≤ n then
                match parseJString cs3 with
                | some (s, r) => some (Char.ofNat n :: s, r)
                | none => none
              else none
            | _, _, _, _ => none
          | _ => none
        else
          match unescape d with
          | some e =>
            match parseJString cs2 with
            | some (s, r) => some (e :: s, r)
            | none => none
          | none => none
    else if c.toNat < 32 then none
    else
      match parseJString cs with
      | some (s, r) => some (c :: s, r)
      | none => none

/-- Parse the elements of a nonempty JSON string array, closing bracket
included.  The fuel bounds the number of elements; the callers pass the
input length, which element syntax can never exhaust. -/
def parseElems : Nat → List Char → Option (List String × List Char)
  | fuel + 1, c :: cs =>
      if c = '"' then
        match parseJString cs with
        | some (s, r) =>
          match r with
          | d :: r2 =>
            if d = ',' then
              match parseElems fuel r2 with
              | some (xs, r3) => some (String.mk s :: xs, r3)
              | none => none
            else if d = ']' then some ([String.mk s], r2)
            else none
          | [] => none
        | none => none
      else none
  | _, _ => none

/-- Accept an element parse only when it consumed the whole input. -/
def finishParse : Option (List String × List Char) → Option (List String)
  | some (xs, r) => if r = [] then some xs else none
  | none => none

/-- JSON.parse restricted to an array of strings, the shape this gateway
stores; anything else is a parse failure. -/
def jsonParseMoves (s : String) : Option (List String) :=
  match s.data with
  | '[' :: cs => if cs = [']'] then some [] else finishParse (parseElems cs.length cs)
  | _ => none

/-- A row of the battles table, moves kept as the encoded TEXT blob. -/
structure BattleRow where
  id : String
  player1 : String
  player2 : String
  winner : Option String
  date : Nat
  moves : String
  deriving DecidableEq

/-- The BlobBattleRecord interface, moves as the decoded array. -/
structure BlobBattleRecord where
  id : String
  player1 : String
  player2 : String
  winner : Option String
  date : Nat
  moves : List String
  deriving DecidableEq

abbrev BattleTable := List BattleRow

/-- The row recordBattle inserts: the record with moves JSON.stringify-ed. -/
def rowOfRecord (b : BlobBattleRecord) : BattleRow :=
  { id := b.id, player1 := b.player1, player2 := b.player2,
    winner := b.winner, date := b.date, moves := jsonStringifyMoves b.moves }

/-- database.recordBattle: INSERT INTO battles.  The PRIMARY KEY on id makes
the insert throw on a duplicate id, modelled as none. -/
def recordBattle (tbl : BattleTable) (b : BlobBattleRecord) : Option BattleTable :=
  if tbl.any (fun r => r.id == b.id) then none
  else some (tbl ++ [rowOfRecord b])

/-- The getRecentBattles SELECT: ORDER BY date DESC LIMIT 10.  SQLite fixes
no order among rows of equal date; this model keeps insertion order there. -/
def recentRows (tbl : BattleTable) : List BattleRow :=
  (tbl.mergeSort (fun a b => decide (b.date ≤ a.date))).take 10

/-- One row mapped back to a record, moves JSON.parse-d. -/
def decodeRow (r : BattleRow) : Option BlobBattleRecord :=
  (jsonParseMoves r.moves).map (fun ms =>
    { id := r.id, player1 := r.player1, player2 := r.player2,
      winner := r.winner, date := r.date, moves := ms })

/-- database.getRecentBattles: recent rows with each moves blob decoded;
none when JSON.parse would throw on some row. -/
def getRecentBattles (tbl : BattleTable) : Option (List BlobBattleRecord) :=
  (recentRows tbl).mapM decodeRow

end ServerStick.Db

namespace ServerStick

/-- The entry-replacement function of the present-key branch of dirSet. -/
def replEntry (k : String) (v : Battle) (p : String × Battle) : String × Battle :=
  if p.1 == k then (k, v) else p

/-- The battles object invariant: keys unique, each value's battleId is its key. -/
def battlesInv (m : Directory) : Prop :=
  (m.map Prod.fst).Nodup ∧ ∀ p ∈ m, p.2.battleId = p.1

/-- The reachable-state invariant: at most one queued player (every join
immediately attempts pairing), and a well-keyed battles object. -/
def stateInv (st : ServerState) : Prop :=
  st.matchmakingQueue.length ≤ 1 ∧ battlesInv st.battles

/-- Wins of an optional slot, 0 when the slot is empty, as the win-state
snapshot reports it. -/
def optWins : Option Player → Nat
  | some p => p.wins
  | none => 0

/-- The freshness discipline for inserted battle ids: the event does not store
a battle under a key already present in the directory (randomUUID for paired
battles, a fresh caller-supplied id for CREATE_BATTLE). -/
def insertsFresh : Event → ServerState → Prop
  | .msg _ (.createBattle bid _ _ _), st => dirGet st.battles bid = none
  | .msg _ (.joinQueue _ _ _ nbid _), st => dirGet st.battles nbid = none
  | .tick nbid _, st => dirGet st.battles nbid = none
  | _, _ => True

/-- Example trace: CREATE_BATTLE of session X by user u1 on socket s1. -/
def exCreateX : Event := Event.msg "s1" (ClientMsg.createBattle "X" "u1" "A" "a1")

/-- Example trace: JOIN_BATTLE of session X by user u2 on socket s2. -/
def exJoinX : Event := Event.msg "s2" (ClientMsg.joinBattle "X" "u2" "B" "a2")

/-- Example state: session X created and not yet started. -/
def stUnstartedX : ServerState := runFrom initialState [exCreateX]

/-- Example state: session X created and started by a join. -/
def stStartedX : ServerState := runFrom initialState [exCreateX, exJoinX]

/-- Example state: session X created, then left by its creator. -/
def stLeftX : ServerState :=
  runFrom initialState [exCreateX, Event.msg "s1" (ClientMsg.leaveBattle "X" "u1")]

/-- The session value of stUnstartedX. -/
def bUnstartedX : Battle :=
  { battleId := "X", code := "X"
    player1 := { userId := "u1", username := "A", socketId := "s1",
                 appearance := "a1", wins := 0 }
    player2 := none
    started := false }

/-- The session value of stStartedX. -/
def bStartedX : Battle :=
  { battleId := "X", code := "X"
    player1 := { userId := "u1", username := "A", socketId := "s1",
                 appearance := "a1", wins := 0 }
    player2 := some { userId := "u2", username := "B", socketId := "s2",
                      appearance := "a2", wins := 0 }
    started := true }

end ServerStick

namespace ServerStick

theorem dirGet_cons (k1 : String) (b1 : Battle) (tl : Directory) (k : String) :
    dirGet ((k1, b1) :: tl) k = if k1 = k then some b1 else dirGet tl k := by
  by_cases h : k1 = k <;> simp [dirGet, List.find?_cons, h]

theorem dirGet_mem {m : Directory} {k : String} {b : Battle}
    (h : dirGet m k = some b) : (k, b) ∈ m := by
  induction m with
  | nil => simp [dirGet] at h
  | cons hd tl ih =>
      obtain ⟨k1, b1⟩ := hd
      rw [dirGet_cons] at h
      by_cases hk : k1 = k
      · rw [if_pos hk] at h
        have hb : b1 = b := Option.some_inj.1 h
        subst hb
        subst hk
        exact List.mem_cons_self _ _
      · rw [if_neg hk] at h
        right
        exact ih h

theorem dirGet_eq_none {m : Directory} {k : String}
    (h : ∀ p ∈ m, p.1 ≠ k) : dirGet m k = none := by
  induction m with
  | nil => simp [dirGet]
  | cons hd tl ih =>
      obtain ⟨k1, b1⟩ := hd
      rw [dirGet_cons, if_neg (h (k1, b1) (List.mem_cons_self _ _))]
      exact ih (fun p hp => h p (List.mem_cons_of_mem _ hp))

theorem dirGet_unique {m : Directory} {k : String} {b c : Battle}
    (hnd : (m.map Prod.fst).Nodup) (h : dirGet m k = some b)
    (hc : (k, c) ∈ m) : c = b := by
  induction m with
  | nil => simp at hc
  | cons hd tl ih =>
      obtain ⟨k1, b1⟩ := hd
      simp only [List.map_cons, List.nodup_cons] at hnd
      rw [dirGet_cons] at h
      rcases List.mem_cons.1 hc with hc1 | hc2
      · have hk : k = k1 := congrArg Prod.fst hc1
        have hcb : c = b1 := congrArg Prod.snd hc1
        rw [if_pos hk.symm] at h
        rw [hcb, Option.some_inj.1 h]
      · have hk : k1 ≠ k := by
          intro he
          exact hnd.1 (he ▸ (List.mem_map.2 ⟨(k, c), hc2, rfl⟩))
        rw [if_neg hk] at h
        exact ih hnd.2 h hc2

theorem dirSet_eq_of_any {m : Directory} {k : String} {v : Battle}
    (h : m.any (fun p => p.1 == k)) : dirSet m k v = m.map (replEntry k v) := by
  simp only [dirSet, h, if_true]
  rfl

theorem dirSet_eq_of_not_any {m : Directory} {k : String} {v : Battle}
    (h : ¬ m.any (fun p => p.1 == k)) : dirSet m k v = m ++ [(k, v)] := by
  unfold dirSet
  rw [if_neg h]

theorem dirGet_map_repl_self (m : Directory) (k : String) (v : Battle) :
    dirGet (m.map (replEntry k v)) k = (dirGet m k).map (fun _ => v) := by
  induction m with
  | nil => simp [dirGet]
  | cons hd tl ih =>
      obtain ⟨k1, b1⟩ := hd
      by_cases hk : k1 = k
      · simp only [List.map_cons, replEntry, hk, beq_self_eq_true, if_true]
        rw [dirGet_cons, dirGet_cons, if_pos rfl, if_pos rfl]
        rfl
      · simp only [List.map_cons, replEntry, beq_iff_eq, hk, if_false]
        rw [dirGet_cons, dirGet_cons, if_neg hk, if_neg hk]
        exact ih

theorem dirGet_map_repl_ne (m : Directory) (k : String) (v : Battle) (k2 : String)
    (h : k2 ≠ k) : dirGet (m.map (replEntry k v)) k2 = dirGet m k2 := by
  induction m with
  | nil => simp [dirGet]
  | cons hd tl ih =>
      obtain ⟨k1, b1⟩ := hd
      by_cases hk : k1 = k
      · have hne : k1 ≠ k2 := by
          rw [hk]
          exact Ne.symm h
        simp only [List.map_cons, replEntry, hk, beq_self_eq_true, if_true]
        rw [dirGet_cons, dirGet_cons, if_neg (Ne.symm h), if_neg (Ne.symm h)]
        exact ih
      · simp only [List.map_cons, replEntry, beq_iff_eq, hk, if_false]
        rw [dirGet_cons, dirGet_cons]
        by_cases hk2 : k1 = k2
        · rw [if_pos hk2, if_pos hk2]
        · rw [if_neg hk2, if_neg hk2]
          exact ih

theorem dirGet_append_single_self {m : Directory} {k : String} (v : Battle)
    (h : dirGet m k = none) : dirGet (m ++ [(k, v)]) k = some v := by
  induction m with
  | nil => simp [dirGet, List.find?_cons]
  | cons hd tl ih =>
      obtain ⟨k1, b1⟩ := hd
      rw [dirGet_cons] at h
      rw [List.cons_append, dirGet_cons]
      by_cases hk : k1 = k
      · rw [if_pos hk] at h
        exact absurd h (by simp)
      · rw [if_neg hk] at h ⊢
        exact ih h

theorem dirGet_append_single_ne (m : Directory) (k : String) (v : Battle) (k2 : String)
    (h : k2 ≠ k) : dirGet (m ++ [(k, v)]) k2 = dirGet m k2 := by
  induction m with
  | nil => simp [dirGet, List.find?_cons, Ne.symm h]
  | cons hd tl ih =>
      obtain ⟨k1, b1⟩ := hd
      rw [List.cons_append, dirGet_cons, dirGet_cons]
      by_cases hk : k1 = k2
      · rw [if_pos hk, if_pos hk]
      · rw [if_neg hk, if_neg hk]
        exact ih

theorem any_key_iff {m : Directory} {k : String} :
    m.any (fun p => p.1 == k) = true ↔ ∃ b, dirGet m k = some b := by
  constructor
  · intro h
    induction m with
    | nil => simp at h
    | cons hd tl ih =>
        obtain ⟨k1, b1⟩ := hd
        rw [dirGet_cons]
        by_cases hk : k1 = k
        · exact ⟨b1, by rw [if_pos hk]⟩
        · rw [if_neg hk]
          apply ih
          simp only [List.any_cons, Bool.or_eq_true] at h
          rcases h with h | h
          · exact absurd (by simpa using h) hk
          · exact h
  · rintro ⟨b, hb⟩
    have := dirGet_mem hb
    exact List.any_eq_true.2 ⟨(k, b), this, by simp⟩

theorem dirGet_dirSet_self (m : Directory) (k : String) (v : Battle) :
    dirGet (dirSet m k v) k = some v := by
  by_cases hin : m.any (fun p => p.1 == k)
  · rw [dirSet_eq_of_any hin, dirGet_map_repl_self]
    obtain ⟨b, hb⟩ := any_key_iff.1 hin
    rw [hb]
    rfl
  · rw [dirSet_eq_of_not_any hin]
    apply dirGet_append_single_self
    rcases he : dirGet m k with _ | b
    · rfl
    · exact absurd (any_key_iff.2 ⟨b, he⟩) hin

theorem dirGet_dirSet_ne (m : Directory) (k : String) (v : Battle) (k2 : String)
    (h : k2 ≠ k) : dirGet (dirSet m k v) k2 = dirGet m k2 := by
  by_cases hin : m.any (fun p => p.1 == k)
  · rw [dirSet_eq_of_any hin, dirGet_map_repl_ne _ _ _ _ h]
  · rw [dirSet_eq_of_not_any hin, dirGet_append_single_ne _ _ _ _ h]

theorem mem_dirSet {m : Directory} {k : String} {v : Battle} {p : String × Battle}
    (h : p ∈ dirSet m k v) : p = (k, v) ∨ p ∈ m := by
  by_cases hin : m.any (fun q => q.1 == k)
  · rw [dirSet_eq_of_any hin] at h
    obtain ⟨q, hq, he⟩ := List.mem_map.1 h
    by_cases hk : q.1 = k
    · left
      rw [← he]
      simp [replEntry, hk]
    · right
      rw [← he]
      simpa [replEntry, hk] using hq
  · rw [dirSet_eq_of_not_any hin] at h
    rcases List.mem_append.1 h with h | h
    · right
      exact h
    · left
      simpa using h

theorem keys_dirSet_nodup {m : Directory} {k : String} {v : Battle}
    (h : (m.map Prod.fst).Nodup) : ((dirSet m k v).map Prod.fst).Nodup := by
  by_cases hin : m.any (fun q => q.1 == k)
  · rw [dirSet_eq_of_any hin, List.map_map]
    have he : (m.map (Prod.fst ∘ replEntry k v)) = m.map Prod.fst := by
      apply List.map_congr_left
      intro p _
      by_cases hk : p.1 = k
      · simp [replEntry, hk]
      · simp [replEntry, hk]
    rw [he]
    exact h
  · rw [dirSet_eq_of_not_any hin, List.map_append]
    simp only [List.map_cons, List.map_nil]
    refine List.Nodup.append h (List.nodup_singleton k) ?_
    intro a ha hb
    simp only [List.mem_singleton] at hb
    subst hb
    obtain ⟨p, hp, he⟩ := List.mem_map.1 ha
    exact hin (List.any_eq_true.2 ⟨p, hp, by simp [he]⟩)

theorem dirGet_dirDel_self (m : Directory) (k : String) :
    dirGet (dirDel m k) k = none := by
  apply dirGet_eq_none
  intro p hp
  have := List.of_mem_filter hp
  simpa using this

theorem updFirst_keys (pred : Battle → Bool) (f : Battle → Battle) (m : Directory) :
    (updFirst pred f m).map Prod.fst = m.map Prod.fst := by
  induction m with
  | nil => rfl
  | cons hd tl ih =>
      obtain ⟨k1, b1⟩ := hd
      by_cases hp : pred b1
      · simp [updFirst, hp]
      · simp [updFirst, hp, ih]

theorem mem_updFirst {pred : Battle → Bool} {f : Battle → Battle} {m : Directory}
    {p : String × Battle} (h : p ∈ updFirst pred f m) :
    p ∈ m ∨ ∃ q, q ∈ m ∧ pred q.2 = true ∧ p = (q.1, f q.2) := by
  induction m with
  | nil => simp [updFirst] at h
  | cons hd tl ih =>
      obtain ⟨k1, b1⟩ := hd
      by_cases hp : pred b1
      · simp only [updFirst] at h
        rw [if_pos hp] at h
        rcases List.mem_cons.1 h with h | h
        · right
          exact ⟨(k1, b1), List.mem_cons_self _ _, hp, h⟩
        · left
          exact List.mem_cons_of_mem _ h
      · simp only [updFirst] at h
        rw [if_neg hp] at h
        rcases List.mem_cons.1 h with h | h
        · left
          exact List.mem_cons.2 (Or.inl h)
        · rcases ih h with h2 | ⟨q, hq, hq2, hq3⟩
          · left
            exact List.mem_cons_of_mem _ h2
          · right
            exact ⟨q, List.mem_cons_of_mem _ hq, hq2, hq3⟩

theorem dirGet_updFirst_of_not_pred {pred : Battle → Bool} {f : Battle → Battle}
    {m : Directory} {k : String} {b : Battle}
    (h : dirGet m k = some b) (hp : pred b = false) :
    dirGet (updFirst pred f m) k = some b := by
  induction m with
  | nil => simp [dirGet] at h
  | cons hd tl ih =>
      obtain ⟨k1, b1⟩ := hd
      rw [dirGet_cons] at h
      by_cases hk : k1 = k
      · rw [if_pos hk] at h
        have hb : b1 = b := Option.some_inj.1 h
        subst hb
        rw [updFirst, if_neg (by simp [hp]), dirGet_cons, if_pos hk]
      · rw [if_neg hk] at h
        by_cases hpb : pred b1
        · rw [updFirst, if_pos hpb, dirGet_cons, if_neg hk]
          exact h
        · rw [updFirst, if_neg (by simp [hpb]), dirGet_cons, if_neg hk]
          exact ih h

theorem find?_updFirst_split (f : Battle → Battle) {pred : Battle → Bool}
    {m : Directory} {b : Battle}
    (h : (m.map (fun p => p.2)).find? pred = some b) :
    ∃ m1 k m2, m = m1 ++ (k, b) :: m2 ∧ (∀ q ∈ m1, pred q.2 = false) ∧
      updFirst pred f m = m1 ++ (k, f b) :: m2 := by
  induction m with
  | nil => simp at h
  | cons hd tl ih =>
      obtain ⟨k1, b1⟩ := hd
      by_cases hp : pred b1
      · rw [List.map_cons, List.find?_cons_of_pos _ hp] at h
        have hb : b1 = b := by simpa using h
        subst hb
        refine ⟨[], k1, tl, by simp, by simp, ?_⟩
        simp only [updFirst]
        rw [if_pos hp]
        simp
      · rw [List.map_cons, List.find?_cons_of_neg _ hp] at h
        obtain ⟨m1, k, m2, he, hall, hupd⟩ := ih h
        refine ⟨(k1, b1) :: m1, k, m2, by simp [he], ?_, ?_⟩
        · intro q hq
          rcases List.mem_cons.1 hq with h1 | h2
          · subst h1
            simpa using hp
          · exact hall q h2
        · simp only [updFirst]
          rw [if_neg hp, hupd]
          rfl

theorem creditWins_battleId (u : String) (m : BattleMsg) (b : Battle) :
    (creditWins u m b).battleId = b.battleId := by
  unfold creditWins
  split <;> try rfl
  split
  · rfl
  · split
    · split <;> rfl
    · rfl

theorem creditWins_started (u : String) (m : BattleMsg) (b : Battle) :
    (creditWins u m b).started = b.started := by
  unfold creditWins
  split <;> try rfl
  split
  · rfl
  · split
    · split <;> rfl
    · rfl

theorem battlesInv_dirSet {m : Directory} {k : String} {v : Battle}
    (h : battlesInv m) (hv : v.battleId = k) : battlesInv (dirSet m k v) := by
  refine ⟨keys_dirSet_nodup h.1, ?_⟩
  intro p hp
  rcases mem_dirSet hp with h1 | h2
  · subst h1
    exact hv
  · exact h.2 p h2

theorem battlesInv_filter {m : Directory} (pr : String × Battle → Bool)
    (h : battlesInv m) : battlesInv (m.filter pr) := by
  refine ⟨?_, ?_⟩
  · exact List.Nodup.sublist ((List.filter_sublist m).map Prod.fst) h.1
  · intro p hp
    exact h.2 p (List.mem_of_mem_filter hp)

theorem processMatchmaking_inv {nbid ncode : String} {st : ServerState}
    (hq : st.matchmakingQueue.length ≤ 2) (hb : battlesInv st.battles) :
    stateInv (processMatchmaking nbid ncode st).1 := by
  unfold processMatchmaking
  rcases hqe : st.matchmakingQueue with _ | ⟨p1, _ | ⟨p2, rest⟩⟩
  · exact ⟨by simp [hqe], hb⟩
  · exact ⟨by simp [hqe], hb⟩
  · rw [hqe] at hq
    refine ⟨?_, battlesInv_dirSet hb rfl⟩
    show rest.length ≤ 1
    simp only [List.length_cons] at hq
    omega

theorem stepEv_inv (e : Event) (st : ServerState) (h : stateInv st) :
    stateInv (stepEv e st).1 := by
  obtain ⟨hq, hb⟩ := h
  cases e with
  | msg sock m =>
      cases m with
      | joinQueue uid un ap nbid ncode =>
          show stateInv (processMatchmaking nbid ncode
            { st with matchmakingQueue :=
                (st.matchmakingQueue.filter (fun p : QueueEntry => p.userId != uid)) ++
                  [QueueEntry.mk uid (orAnonymous un) sock ap] }).1
          apply processMatchmaking_inv
          · show ((st.matchmakingQueue.filter (fun p : QueueEntry => p.userId != uid)) ++
                [QueueEntry.mk uid (orAnonymous un) sock ap]).length ≤ 2
            have hlen : (st.matchmakingQueue.filter (fun p : QueueEntry => p.userId != uid)).length ≤
                st.matchmakingQueue.length := List.length_filter_le _ _
            simp only [List.length_append, List.length_cons, List.length_nil]
            omega
          · exact hb
      | leaveQueue uid =>
          refine ⟨?_, hb⟩
          show (st.matchmakingQueue.filter (fun p => p.userId != uid)).length ≤ 1
          have hlen : (st.matchmakingQueue.filter (fun p => p.userId != uid)).length ≤
              st.matchmakingQueue.length := List.length_filter_le _ _
          omega
      | getQueue => exact ⟨hq, hb⟩
      | createBattle bid uid un ap =>
          exact ⟨hq, battlesInv_dirSet hb rfl⟩
      | joinBattle bid uid un ap =>
          show stateInv (handleJoinBattle sock bid uid un ap st).1
          unfold handleJoinBattle
          rcases hf : (st.battles.map (fun p => p.2)).find? (joinPred bid) with _ | b
          all_goals rw [hf]
          · exact ⟨hq, hb⟩
          · refine ⟨hq, ?_, ?_⟩
            · rw [updFirst_keys]
              exact hb.1
            · intro p hp
              rcases mem_updFirst hp with h1 | ⟨q2, hq2, _, hq3⟩
              · exact hb.2 p h1
              · subst hq3
                exact hb.2 q2 hq2
      | sendBattleMessage bid uid m =>
          show stateInv (handleSendBattleMessage sock bid uid m st).1
          unfold handleSendBattleMessage
          rcases hf : dirGet st.battles bid with _ | battle
          · exact ⟨hq, hb⟩
          · refine ⟨hq, battlesInv_dirSet hb ?_⟩
            rw [creditWins_battleId]
            exact hb.2 (bid, battle) (dirGet_mem hf)
      | leaveBattle bid uid =>
          show stateInv (handleLeaveBattle bid uid st).1
          unfold handleLeaveBattle
          rcases hf : dirGet st.battles bid with _ | b
          · exact ⟨hq, hb⟩
          · exact ⟨hq, battlesInv_filter _ hb⟩
      | ping => exact ⟨hq, hb⟩
  | disconnect sock =>
      refine ⟨?_, battlesInv_filter _ hb⟩
      show (if st.matchmakingQueue.any (fun p => p.socketId == sock) then
          st.matchmakingQueue.filter (fun p => p.socketId != sock)
        else st.matchmakingQueue).length ≤ 1
      split
      · have hlen : (st.matchmakingQueue.filter (fun p => p.socketId != sock)).length ≤
            st.matchmakingQueue.length := List.length_filter_le _ _
        omega
      · exact hq
  | tick nbid ncode =>
      exact processMatchmaking_inv (by omega) hb

theorem runFrom_inv (evs : List Event) (st : ServerState) (h : stateInv st) :
    stateInv (runFrom st evs) := by
  induction evs generalizing st with
  | nil => exact h
  | cons e rest ih => exact ih _ (stepEv_inv e st h)

theorem reachable_inv {st : ServerState} (h : Reachable st) : stateInv st := by
  obtain ⟨evs, he⟩ := h
  subst he
  apply runFrom_inv
  refine ⟨?_, ?_, ?_⟩
  · show ([] : List QueueEntry).length ≤ 1
    simp
  · show (([] : Directory).map Prod.fst).Nodup
    simp
  · intro p hp
    simp [initialState] at hp

end ServerStick
namespace ServerStick

theorem queue_short {st : ServerState} (h : Reachable st) :
    st.matchmakingQueue = [] ∨ ∃ x, st.matchmakingQueue = [x] := by
  have hlen := (reachable_inv h).1
  match hq : st.matchmakingQueue with
  | [] => exact Or.inl rfl
  | [x] => exact Or.inr ⟨x, rfl⟩
  | x :: y :: r =>
      rw [hq] at hlen
      simp at hlen

/-- C1: for every session in the directory and every SEND_BATTLE_MESSAGE
flagged as game-over that names winning slot 1 or 2, the named slot's win
counter is incremented exactly when the reporting userId equals that slot's
own userId, and a report from any other identity leaves both counters
unchanged. -/
theorem sendBattleMessage_credits_wins_iff_reporter
    (sock bid uid : String) (m : BattleMsg) (st : ServerState) (b : Battle)
    (hb : dirGet st.battles bid = some b) (hg : m.gameOver = true) :
    (m.winner = 1 →
      ∃ b2, dirGet (handleSendBattleMessage sock bid uid m st).1.battles bid = some b2 ∧
        b2.player1.wins = b.player1.wins + (if uid = b.player1.userId then 1 else 0) ∧
        optWins b2.player2 = optWins b.player2) ∧
    (m.winner = 2 →
      ∃ b2, dirGet (handleSendBattleMessage sock bid uid m st).1.battles bid = some b2 ∧
        b2.player1.wins = b.player1.wins ∧
        optWins b2.player2 = optWins b.player2 +
          (if b.player2.map (fun p => p.userId) = some uid then 1 else 0)) := by
  have hres : dirGet (handleSendBattleMessage sock bid uid m st).1.battles bid =
      some (creditWins uid m b) := by
    unfold handleSendBattleMessage
    rw [hb]
    exact dirGet_dirSet_self st.battles bid (creditWins uid m b)
  constructor
  · intro hw
    refine ⟨creditWins uid m b, hres, ?_, ?_⟩
    · unfold creditWins
      rw [hg, hw]
      by_cases hu : uid = b.player1.userId
      · simp [hu]
      · simp [hu]
    · unfold creditWins
      rw [hg, hw]
      by_cases hu : uid = b.player1.userId
      · simp [hu]
      · simp [hu]
  · intro hw
    refine ⟨creditWins uid m b, hres, ?_, ?_⟩
    · unfold creditWins
      rw [hg, hw]
      rcases hp2 : b.player2 with _ | p
      · simp
      · by_cases hu : uid = p.userId
        · simp [hu]
        · have hu2 : ¬p.userId = uid := fun he => hu he.symm
          simp [hu, hu2]
    · unfold creditWins
      rw [hg, hw]
      rcases hp2 : b.player2 with _ | p
      · simp [hp2, optWins]
      · by_cases hu : uid = p.userId
        · simp [hp2, hu, optWins]
        · have hu2 : ¬p.userId = uid := fun he => hu he.symm
          simp [hp2, hu, hu2, optWins]

theorem sendBattleMessage_credits_wins_iff_reporter_witness :
    ∃ b2, dirGet (handleSendBattleMessage "s1" "X" "u1"
        (BattleMsg.mk true 1 "p") stStartedX).1.battles "X" = some b2 ∧
      b2.player1.wins = bStartedX.player1.wins +
        (if "u1" = bStartedX.player1.userId then 1 else 0) ∧
      optWins b2.player2 = optWins bStartedX.player2 := by
  exact (sendBattleMessage_credits_wins_iff_reporter "s1" "X" "u1"
    (BattleMsg.mk true 1 "p") stStartedX bStartedX (by decide) rfl).1 rfl

/-- C3: processMatchmaking is a strict no-op when fewer than two players are
queued, and with at least two it removes exactly the two oldest entries in
FIFO order: the queue becomes the old tail after the first two, its length
drops by exactly 2, and (under the no-duplicate-userId discipline) neither
paired userId remains in the queue. -/
theorem processMatchmaking_fifo_pair (nbid ncode : String) (st : ServerState) :
    (st.matchmakingQueue.length < 2 → processMatchmaking nbid ncode st = (st, [])) ∧
    (∀ p1 p2 rest, st.matchmakingQueue = p1 :: p2 :: rest →
      (processMatchmaking nbid ncode st).1.matchmakingQueue = rest ∧
      (processMatchmaking nbid ncode st).1.matchmakingQueue.length + 2 =
        st.matchmakingQueue.length ∧
      ((st.matchmakingQueue.map (fun q => q.userId)).Nodup →
        ∀ q ∈ rest, q.userId ≠ p1.userId ∧ q.userId ≠ p2.userId)) := by
  constructor
  · intro hlen
    unfold processMatchmaking
    rcases hqe : st.matchmakingQueue with _ | ⟨x, _ | ⟨y, r⟩⟩
    · rfl
    · rfl
    · rw [hqe] at hlen
      simp only [List.length_cons] at hlen
      omega
  · intro p1 p2 rest hqe
    have hred : (processMatchmaking nbid ncode st).1.matchmakingQueue = rest := by
      unfold processMatchmaking
      rw [hqe]
    refine ⟨hred, ?_, ?_⟩
    · rw [hred, hqe]
      simp
    · intro hnd q hq
      rw [hqe] at hnd
      simp only [List.map_cons] at hnd
      have h1 : p1.userId ∉ (p2.userId :: rest.map (fun q => q.userId)) :=
        (List.nodup_cons.1 hnd).1
      have hnd2 := (List.nodup_cons.1 hnd).2
      have h2 : p2.userId ∉ rest.map (fun q => q.userId) := (List.nodup_cons.1 hnd2).1
      constructor
      · intro he
        exact h1 (List.mem_cons_of_mem _ (he ▸ List.mem_map.2 ⟨q, hq, rfl⟩))
      · intro he
        exact h2 (he ▸ List.mem_map.2 ⟨q, hq, rfl⟩)

theorem processMatchmaking_fifo_pair_witness :
    processMatchmaking "B9" "C9" initialState = (initialState, []) ∧
    (processMatchmaking "B9" "C9"
      (ServerState.mk [QueueEntry.mk "u1" "A" "s1" "a1",
                       QueueEntry.mk "u2" "B" "s2" "a2"] [])).1.matchmakingQueue = [] := by
  constructor
  · exact (processMatchmaking_fifo_pair "B9" "C9" initialState).1 (by decide)
  · exact ((processMatchmaking_fifo_pair "B9" "C9"
      (ServerState.mk [QueueEntry.mk "u1" "A" "s1" "a1",
                       QueueEntry.mk "u2" "B" "s2" "a2"] [])).2
      (QueueEntry.mk "u1" "A" "s1" "a1") (QueueEntry.mk "u2" "B" "s2" "a2") [] rfl).1

/-- C4: over any event sequence the queue never holds two entries with the
same userId, and a JOIN_QUEUE for an already-present userId removes the prior
entry and appends the new entry at the tail, so the most recent join
determines queue position; the broadcast queue is exactly that list. -/
theorem joinQueue_unique_userId (st : ServerState) (h : Reachable st) :
    ((st.matchmakingQueue.map (fun q => q.userId)).Nodup) ∧
    (∀ sock uid un ap nbid ncode,
      (handleJoinQueue sock uid un ap nbid ncode st).2 =
        OutEvent.queueUpdate none
            (st.matchmakingQueue.filter (fun p => p.userId != uid) ++
              [QueueEntry.mk uid (orAnonymous un) sock ap]) ::
          (processMatchmaking nbid ncode
            { st with matchmakingQueue :=
                st.matchmakingQueue.filter (fun p => p.userId != uid) ++
                  [QueueEntry.mk uid (orAnonymous un) sock ap] }).2 ∧
      (st.matchmakingQueue.filter (fun p => p.userId != uid) ++
          [QueueEntry.mk uid (orAnonymous un) sock ap]).getLast? =
        some (QueueEntry.mk uid (orAnonymous un) sock ap) ∧
      (∀ p ∈ (st.matchmakingQueue.filter (fun p => p.userId != uid) ++
          [QueueEntry.mk uid (orAnonymous un) sock ap]).dropLast, p.userId ≠ uid) ∧
      ((st.matchmakingQueue.filter (fun p => p.userId != uid) ++
          [QueueEntry.mk uid (orAnonymous un) sock ap]).map (fun q => q.userId)).Nodup) := by
  have hnd : (st.matchmakingQueue.map (fun q => q.userId)).Nodup := by
    rcases queue_short h with hq | ⟨x, hq⟩ <;> rw [hq] <;> simp
  refine ⟨hnd, ?_⟩
  intro sock uid un ap nbid ncode
  refine ⟨rfl, List.getLast?_concat _, ?_, ?_⟩
  · intro p hp
    rw [List.dropLast_concat] at hp
    have := List.of_mem_filter hp
    simpa using this
  · rw [List.map_append]
    refine List.Nodup.append ?_ (by simp) ?_
    · exact List.Nodup.sublist
        ((List.filter_sublist st.matchmakingQueue).map (fun q => q.userId)) hnd
    · intro a ha hb2
      simp only [List.map_cons, List.map_nil, List.mem_singleton] at hb2
      subst hb2
      obtain ⟨p, hp, he⟩ := List.mem_map.1 ha
      have := List.of_mem_filter hp
      rw [he] at this
      simp at this

theorem joinQueue_unique_userId_witness :
    ((stUnstartedX.matchmakingQueue.map (fun q => q.userId)).Nodup) ∧
    (stUnstartedX.matchmakingQueue.filter (fun p => p.userId != "u3") ++
        [QueueEntry.mk "u3" "C" "s3" "a3"]).getLast? =
      some (QueueEntry.mk "u3" "C" "s3" "a3") := by
  have h := joinQueue_unique_userId stUnstartedX ⟨[exCreateX], rfl⟩
  exact ⟨h.1, (h.2 "s3" "u3" "C" "a3" "B9" "C9").2.1⟩

/-- C8: at every reachable state, no two matchmaking-queue entries share a
connection handle (socketId).  This holds a fortiori: since every JOIN_QUEUE
immediately attempts pairing, the queue never holds two entries at all. -/
theorem queue_sockets_pairwise_distinct (st : ServerState) (h : Reachable st) :
    List.Pairwise (fun a b : QueueEntry => a.socketId ≠ b.socketId)
      st.matchmakingQueue := by
  rcases queue_short h with hq | ⟨x, hq⟩ <;> rw [hq] <;> simp

theorem queue_sockets_pairwise_distinct_witness :
    List.Pairwise (fun a b : QueueEntry => a.socketId ≠ b.socketId)
      stUnstartedX.matchmakingQueue := by
  exact queue_sockets_pairwise_distinct stUnstartedX ⟨[exCreateX], rfl⟩

/-- C10: a LEAVE_BATTLE naming an existing session with a userId matching
neither slot still deletes the session, and no OPPONENT_DISCONNECTED is
emitted to either slot's connection. -/
theorem leaveBattle_foreign_user_deletes_silently
    (st : ServerState) (k uid : String) (b : Battle)
    (hb : dirGet st.battles k = some b)
    (h1 : uid ≠ b.player1.userId)
    (h2 : b.player2.map (fun p => p.userId) ≠ some uid) :
    (handleLeaveBattle k uid st).1.battles = dirDel st.battles k ∧
    dirGet (handleLeaveBattle k uid st).1.battles k = none ∧
    (handleLeaveBattle k uid st).2 = [] := by
  have hc1 : (b.player1.userId == uid) = false := by
    simp only [beq_eq_false_iff_ne, ne_eq]
    exact fun he => h1 he.symm
  have hops : (handleLeaveBattle k uid st) = ({ st with battles := dirDel st.battles k }, []) := by
    unfold handleLeaveBattle
    rw [hb]
    rcases hp2 : b.player2 with _ | p
    · simp [hc1, hp2]
    · rw [hp2] at h2
      have hc2 : (p.userId == uid) = false := by
        simp only [beq_eq_false_iff_ne, ne_eq]
        intro he
        exact h2 (by simp [he])
      simp [hc1, hp2, hc2]
  exact ⟨by rw [hops], by rw [hops]; exact dirGet_dirDel_self st.battles k, by rw [hops]⟩

theorem leaveBattle_foreign_user_deletes_silently_witness :
    (handleLeaveBattle "X" "u9" stStartedX).1.battles = dirDel stStartedX.battles "X" ∧
    dirGet (handleLeaveBattle "X" "u9" stStartedX).1.battles "X" = none ∧
    (handleLeaveBattle "X" "u9" stStartedX).2 = [] := by
  exact leaveBattle_foreign_user_deletes_silently stStartedX "X" "u9" bStartedX
    (by decide) (by decide) (by decide)

end ServerStick

namespace ServerStick

theorem find?_joinPred_none_of_absent {m : Directory} {k : String}
    (hinv : battlesInv m) (hb : dirGet m k = none) :
    (m.map (fun p => p.2)).find? (joinPred k) = none := by
  rw [List.find?_eq_none]
  intro v hv hpred
  obtain ⟨p, hp, he⟩ := List.mem_map.1 hv
  simp only [joinPred] at hpred
  rw [Bool.and_eq_true] at hpred
  have hbid : v.battleId = k := by simpa using hpred.1
  have hkey : p.1 = k := by
    rw [← hbid, ← he]
    exact (hinv.2 p hp).symm
  have hany : m.any (fun q => q.1 == k) = true := List.any_eq_true.2 ⟨p, hp, by simp [hkey]⟩
  obtain ⟨b2, hb2⟩ := any_key_iff.1 hany
  rw [hb] at hb2
  cases hb2

theorem find?_joinPred_none_of_started {m : Directory} {k : String} {b : Battle}
    (hinv : battlesInv m) (hb : dirGet m k = some b) (hs : b.started = true) :
    (m.map (fun p => p.2)).find? (joinPred k) = none := by
  rw [List.find?_eq_none]
  intro v hv hpred
  obtain ⟨p, hp, he⟩ := List.mem_map.1 hv
  simp only [joinPred] at hpred
  rw [Bool.and_eq_true] at hpred
  have hbid : v.battleId = k := by simpa using hpred.1
  have hnots : v.started = false := by simpa using hpred.2
  have hkey : p.1 = k := by
    rw [← hbid, ← he]
    exact (hinv.2 p hp).symm
  have hmem : (k, p.2) ∈ m := by
    rw [← hkey]
    exact hp
  have hvb : p.2 = b := dirGet_unique hinv.1 hb hmem
  rw [he] at hvb
  rw [hvb, hs] at hnots
  cases hnots

theorem dirGet_append_cons_self (m1 : Directory) (c : String) (v : Battle)
    (m2 : Directory) (h : ∀ p ∈ m1, p.1 ≠ c) :
    dirGet (m1 ++ (c, v) :: m2) c = some v := by
  induction m1 with
  | nil =>
      rw [List.nil_append, dirGet_cons, if_pos rfl]
  | cons hd tl ih =>
      obtain ⟨k1, b1⟩ := hd
      rw [List.cons_append, dirGet_cons, if_neg (h (k1, b1) (List.mem_cons_self _ _))]
      exact ih (fun p hp => h p (List.mem_cons_of_mem _ hp))

theorem processMatchmaking_battles_eq (nbid ncode : String) (s : ServerState)
    (k : String) (hk : k ≠ nbid) :
    dirGet (processMatchmaking nbid ncode s).1.battles k = dirGet s.battles k := by
  unfold processMatchmaking
  rcases hqe : s.matchmakingQueue with _ | ⟨p1, _ | ⟨p2, rest⟩⟩
  · rfl
  · rfl
  · exact dirGet_dirSet_ne s.battles nbid _ k hk

/-- C2 counterexample: CREATE_BATTLE reusing the battleId of a started session
overwrites the session in place, so the started flag of directory entry X goes
from true back to false in a single step. -/
theorem started_reverts_on_create_overwrite_cex :
    (dirGet stStartedX.battles "X").map (fun b => b.started) = some true ∧
    (dirGet (stepEv (Event.msg "s3" (ClientMsg.createBattle "X" "u3" "C" "a3"))
        stStartedX).1.battles "X").map (fun b => b.started) = some false := by
  exact ⟨rfl, rfl⟩

/-- C2 (amended): provided no event stores a battle under an already-present
battleId (fresh randomUUID for pairing, a fresh caller id for CREATE_BATTLE),
the started flag of a directory entry never goes from true back to false in
one step; and once the session at some battleId is started, any JOIN_BATTLE
addressed to that battleId fails with the single combined ERROR and leaves
the whole state unchanged. -/
theorem started_no_revert_when_ids_fresh (st : ServerState) (h : Reachable st)
    (k : String) (b : Battle) (hb : dirGet st.battles k = some b)
    (hs : b.started = true) :
    (∀ e, insertsFresh e st → ∀ b2, dirGet (stepEv e st).1.battles k = some b2 →
      b2.started = true) ∧
    (∀ sock uid un ap, handleJoinBattle sock k uid un ap st =
      (st, [OutEvent.errorMsg sock "Invalid battle code or battle already started"])) := by
  obtain ⟨hq, hinv⟩ := reachable_inv h
  constructor
  · intro e he b2 hb2
    cases e with
    | msg sock m2 =>
        cases m2 with
        | joinQueue uid un ap nbid ncode =>
            have hk : k ≠ nbid := by
              intro hke
              rw [hke, he] at hb
              cases hb
            have h0 : dirGet (processMatchmaking nbid ncode
                { st with matchmakingQueue :=
                    st.matchmakingQueue.filter (fun p => p.userId != uid) ++
                      [QueueEntry.mk uid (orAnonymous un) sock ap] }).1.battles k =
                some b2 := hb2
            rw [processMatchmaking_battles_eq nbid ncode _ k hk] at h0
            have h1 : dirGet st.battles k = some b2 := h0
            rw [hb] at h1
            rw [← Option.some_inj.1 h1]
            exact hs
        | leaveQueue uid =>
            have h1 : dirGet st.battles k = some b2 := hb2
            rw [hb] at h1
            rw [← Option.some_inj.1 h1]
            exact hs
        | getQueue =>
            have h1 : dirGet st.battles k = some b2 := hb2
            rw [hb] at h1
            rw [← Option.some_inj.1 h1]
            exact hs
        | createBattle bid uid un ap =>
            have hk : k ≠ bid := by
              intro hke
              rw [hke, he] at hb
              cases hb
            have h0 : dirGet (dirSet st.battles bid
                (Battle.mk bid bid (Player.mk uid (orAnonymous un) sock ap 0) none false)) k =
                some b2 := hb2
            rw [dirGet_dirSet_ne _ _ _ _ hk] at h0
            rw [hb] at h0
            rw [← Option.some_inj.1 h0]
            exact hs
        | joinBattle c uid un ap =>
            have h0 : dirGet (handleJoinBattle sock c uid un ap st).1.battles k =
                some b2 := hb2
            unfold handleJoinBattle at h0
            rcases hf : (st.battles.map (fun p => p.2)).find? (joinPred c) with _ | bb
            · rw [hf] at h0
              have h1 : dirGet st.battles k = some b2 := h0
              rw [hb] at h1
              rw [← Option.some_inj.1 h1]
              exact hs
            · rw [hf] at h0
              have h1 : dirGet (updFirst (joinPred c)
                  (fun bb2 => { bb2 with
                    player2 := some (Player.mk uid (orAnonymous un) sock ap 0),
                    started := true }) st.battles) k = some b2 := h0
              have h2 : dirGet (updFirst (joinPred c)
                  (fun bb2 => { bb2 with
                    player2 := some (Player.mk uid (orAnonymous un) sock ap 0),
                    started := true }) st.battles) k = some b :=
                dirGet_updFirst_of_not_pred hb (by simp [joinPred, hs])
              rw [h2] at h1
              rw [← Option.some_inj.1 h1]
              exact hs
        | sendBattleMessage bid uid m3 =>
            have h0 : dirGet (handleSendBattleMessage sock bid uid m3 st).1.battles k =
                some b2 := hb2
            unfold handleSendBattleMessage at h0
            rcases hf : dirGet st.battles bid with _ | battle
            · rw [hf] at h0
              have h1 : dirGet st.battles k = some b2 := h0
              rw [hb] at h1
              rw [← Option.some_inj.1 h1]
              exact hs
            · rw [hf] at h0
              have h1 : dirGet (dirSet st.battles bid (creditWins uid m3 battle)) k =
                  some b2 := h0
              by_cases hkb : k = bid
              · subst hkb
                have hbb : battle = b := by
                  rw [hf] at hb
                  exact Option.some_inj.1 hb
                rw [dirGet_dirSet_self] at h1
                rw [← Option.some_inj.1 h1, creditWins_started, hbb]
                exact hs
              · rw [dirGet_dirSet_ne _ _ _ _ hkb] at h1
                rw [hb] at h1
                rw [← Option.some_inj.1 h1]
                exact hs
        | leaveBattle bid uid =>
            have h0 : dirGet (handleLeaveBattle bid uid st).1.battles k = some b2 := hb2
            unfold handleLeaveBattle at h0
            rcases hf : dirGet st.battles bid with _ | bb
            · rw [hf] at h0
              have h1 : dirGet st.battles k = some b2 := h0
              rw [hb] at h1
              rw [← Option.some_inj.1 h1]
              exact hs
            · rw [hf] at h0
              have h1 : dirGet (dirDel st.battles bid) k = some b2 := h0
              have hmem : (k, b2) ∈ st.battles := List.mem_of_mem_filter (dirGet_mem h1)
              rw [dirGet_unique hinv.1 hb hmem]
              exact hs
        | ping =>
            have h1 : dirGet st.battles k = some b2 := hb2
            rw [hb] at h1
            rw [← Option.some_inj.1 h1]
            exact hs
    | disconnect sock =>
        have h1 : dirGet (st.battles.filter (fun p => !battleHitBySock sock p.2)) k =
            some b2 := hb2
        have hmem : (k, b2) ∈ st.battles := List.mem_of_mem_filter (dirGet_mem h1)
        rw [dirGet_unique hinv.1 hb hmem]
        exact hs
    | tick nbid ncode =>
        have hk : k ≠ nbid := by
          intro hke
          rw [hke, he] at hb
          cases hb
        have h0 : dirGet (processMatchmaking nbid ncode st).1.battles k = some b2 := hb2
        rw [processMatchmaking_battles_eq nbid ncode st k hk] at h0
        rw [hb] at h0
        rw [← Option.some_inj.1 h0]
        exact hs
  · intro sock uid un ap
    unfold handleJoinBattle
    rw [find?_joinPred_none_of_started hinv hb hs]

theorem started_no_revert_when_ids_fresh_witness :
    handleJoinBattle "s9" "X" "u9" "C" "c9" stStartedX =
      (stStartedX, [OutEvent.errorMsg "s9"
        "Invalid battle code or battle already started"]) := by
  exact (started_no_revert_when_ids_fresh stStartedX ⟨[exCreateX, exJoinX], rfl⟩ "X"
    bStartedX (by decide) rfl).2 "s9" "u9" "C" "c9"

/-- C5 counterexample: a LEAVE_BATTLE addressed to an already-removed
sessionId is a silent no-op - the state is unchanged and no ERROR event is
emitted - rather than failing with a not-found error. -/
theorem leaveBattle_absent_silent_cex :
    stepEv (Event.msg "s1" (ClientMsg.leaveBattle "X" "u1")) stLeftX =
      (stLeftX, []) := by
  rfl

/-- C5 (amended): leaveSession always removes an existing session from the
directory; afterwards a SEND_BATTLE_MESSAGE to that sessionId fails with the
Battle-not-found ERROR and a JOIN_BATTLE fails with the combined invalid-code
ERROR, while a further LEAVE_BATTLE is a silent no-op with no error event. -/
theorem leaveSession_removes_then_notFound
    (st : ServerState) (k uid : String) (b : Battle)
    (hb : dirGet st.battles k = some b) :
    dirGet (handleLeaveBattle k uid st).1.battles k = none ∧
    (∀ st2, Reachable st2 → dirGet st2.battles k = none →
      (∀ sock uid2 m, handleSendBattleMessage sock k uid2 m st2 =
        (st2, [OutEvent.errorMsg sock "Battle not found"])) ∧
      (∀ sock uid2 un ap, handleJoinBattle sock k uid2 un ap st2 =
        (st2, [OutEvent.errorMsg sock "Invalid battle code or battle already started"])) ∧
      (∀ uid2, handleLeaveBattle k uid2 st2 = (st2, []))) := by
  constructor
  · unfold handleLeaveBattle
    rw [hb]
    exact dirGet_dirDel_self st.battles k
  · intro st2 h2 habs
    obtain ⟨_, hinv⟩ := reachable_inv h2
    refine ⟨?_, ?_, ?_⟩
    · intro sock uid2 m
      unfold handleSendBattleMessage
      rw [habs]
    · intro sock uid2 un ap
      unfold handleJoinBattle
      rw [find?_joinPred_none_of_absent hinv habs]
    · intro uid2
      unfold handleLeaveBattle
      rw [habs]

theorem leaveSession_removes_then_notFound_witness :
    dirGet (handleLeaveBattle "X" "u1" stUnstartedX).1.battles "X" = none ∧
    handleSendBattleMessage "s9" "X" "u9" (BattleMsg.mk false 0 "pp") stLeftX =
      (stLeftX, [OutEvent.errorMsg "s9" "Battle not found"]) ∧
    handleJoinBattle "s9" "X" "u9" "C" "c9" stLeftX =
      (stLeftX, [OutEvent.errorMsg "s9" "Invalid battle code or battle already started"]) ∧
    handleLeaveBattle "X" "u9" stLeftX = (stLeftX, []) := by
  have h := leaveSession_removes_then_notFound stUnstartedX "X" "u1" bUnstartedX (by decide)
  have h2 := h.2 stLeftX
    ⟨[exCreateX, Event.msg "s1" (ClientMsg.leaveBattle "X" "u1")], rfl⟩ (by decide)
  exact ⟨h.1, h2.1 "s9" "u9" (BattleMsg.mk false 0 "pp"), h2.2.1 "s9" "u9" "C" "c9",
    h2.2.2 "u9"⟩

/-- C6 counterexample: the no-such-code case and the already-started case
produce the same single ERROR event carrying the same string, so the two
failures are not distinct errors. -/
theorem joinBattle_error_not_distinct_cex :
    (handleJoinBattle "s9" "X" "u9" "C" "c9" initialState).2 =
      [OutEvent.errorMsg "s9" "Invalid battle code or battle already started"] ∧
    (handleJoinBattle "s9" "X" "u9" "C" "c9" stStartedX).2 =
      [OutEvent.errorMsg "s9" "Invalid battle code or battle already started"] := by
  exact ⟨rfl, rfl⟩

/-- C6 (amended): JOIN_BATTLE looks up an unstarted session by battleId (equal
to the join code for coded sessions); when none exists - whether the code is
unknown or the session with it is already started - it fails with the one
combined ERROR; on success it fills slotB with the joiner, flips started to
true, and sends MATCH_FOUND with the opponent's name and appearance to both
connections. -/
theorem joinBattle_lookup_amended (st : ServerState) (h : Reachable st)
    (sock c uid un ap : String) :
    ((st.battles.map (fun p => p.2)).find? (joinPred c) = none →
      handleJoinBattle sock c uid un ap st =
        (st, [OutEvent.errorMsg sock "Invalid battle code or battle already started"])) ∧
    (∀ b, (st.battles.map (fun p => p.2)).find? (joinPred c) = some b →
      b.started = false ∧ b.battleId = c ∧
      dirGet (handleJoinBattle sock c uid un ap st).1.battles c =
        some { b with player2 := some (Player.mk uid (orAnonymous un) sock ap 0),
                      started := true } ∧
      (handleJoinBattle sock c uid un ap st).2 =
        [OutEvent.matchFound b.player1.socketId b.battleId (orAnonymous un) ap,
         OutEvent.matchFound sock b.battleId b.player1.username b.player1.appearance]) := by
  obtain ⟨_, hinv⟩ := reachable_inv h
  constructor
  · intro hf
    unfold handleJoinBattle
    rw [hf]
  · intro b hf
    have hpred := List.find?_some hf
    simp only [joinPred] at hpred
    rw [Bool.and_eq_true] at hpred
    have hbid : b.battleId = c := by simpa using hpred.1
    have hnots : b.started = false := by simpa using hpred.2
    refine ⟨hnots, hbid, ?_, ?_⟩
    · obtain ⟨m1, k0, m2, hm, hall, hupd⟩ :=
        find?_updFirst_split (fun bb => { bb with
          player2 := some (Player.mk uid (orAnonymous un) sock ap 0),
          started := true }) hf
      have hres : (handleJoinBattle sock c uid un ap st).1.battles =
          updFirst (joinPred c) (fun bb => { bb with
            player2 := some (Player.mk uid (orAnonymous un) sock ap 0),
            started := true }) st.battles := by
        unfold handleJoinBattle
        rw [hf]
      have hk0 : k0 = c := by
        have hx : b.battleId = k0 := hinv.2 (k0, b)
          (by rw [hm]; exact List.mem_append.2 (Or.inr (List.mem_cons_self _ _)))
        rw [← hx, hbid]
      subst hk0
      rw [hres, hupd]
      apply dirGet_append_cons_self
      intro p hp hpe
      have hnd := hinv.1
      rw [hm, List.map_append, List.map_cons] at hnd
      obtain ⟨-, -, hdisj⟩ := List.nodup_append.1 hnd
      exact hdisj (hpe ▸ List.mem_map.2 ⟨p, hp, rfl⟩) (List.mem_cons_self _ _)
    · unfold handleJoinBattle
      rw [hf]

theorem joinBattle_lookup_amended_witness :
    bUnstartedX.started = false ∧ bUnstartedX.battleId = "X" ∧
    dirGet (handleJoinBattle "s2" "X" "u2" "B" "a2" stUnstartedX).1.battles "X" =
      some { bUnstartedX with
              player2 := some (Player.mk "u2" (orAnonymous "B") "s2" "a2" 0),
              started := true } ∧
    (handleJoinBattle "s2" "X" "u2" "B" "a2" stUnstartedX).2 =
      [OutEvent.matchFound bUnstartedX.player1.socketId bUnstartedX.battleId
        (orAnonymous "B") "a2",
       OutEvent.matchFound "s2" bUnstartedX.battleId bUnstartedX.player1.username
        bUnstartedX.player1.appearance] := by
  exact (joinBattle_lookup_amended stUnstartedX ⟨[exCreateX], rfl⟩ "s2" "X" "u2" "B" "a2").2
    bUnstartedX (by decide)

/-- C7 counterexample: CREATE_BATTLE with a battleId already in the directory
silently replaces the existing session: after u1 creates X, a CREATE_BATTLE
for X by u3 leaves a single X entry belonging to u3, destroying u1's session. -/
theorem createBattle_overwrites_cex :
    (dirGet stUnstartedX.battles "X").map (fun b => b.player1.userId) = some "u1" ∧
    (dirGet (stepEv (Event.msg "s3" (ClientMsg.createBattle "X" "u3" "C" "a3"))
        stUnstartedX).1.battles "X").map (fun b => b.player1.userId) = some "u3" ∧
    (stepEv (Event.msg "s3" (ClientMsg.createBattle "X" "u3" "C" "a3"))
        stUnstartedX).1.battles.length = 1 := by
  exact ⟨rfl, rfl, rfl⟩

/-- C7 (amended): CREATE_BATTLE stores the new unstarted session under the
caller-supplied battleId; all other keys are untouched, and when the id is
fresh the directory is extended without destroying any session - but a
CREATE_BATTLE reusing a present battleId silently replaces that session, so
join-code uniqueness holds only when callers supply fresh ids. -/
theorem createBattle_insert_semantics (sock bid uid un ap : String) (st : ServerState) :
    dirGet (handleCreateBattle sock bid uid un ap st).1.battles bid =
      some (Battle.mk bid bid (Player.mk uid (orAnonymous un) sock ap 0) none false) ∧
    (∀ k2, k2 ≠ bid →
      dirGet (handleCreateBattle sock bid uid un ap st).1.battles k2 =
        dirGet st.battles k2) ∧
    (dirGet st.battles bid = none →
      (handleCreateBattle sock bid uid un ap st).1.battles =
        st.battles ++ [(bid, Battle.mk bid bid
          (Player.mk uid (orAnonymous un) sock ap 0) none false)]) := by
  refine ⟨dirGet_dirSet_self _ _ _, ?_, ?_⟩
  · intro k2 hk2
    exact dirGet_dirSet_ne _ _ _ _ hk2
  · intro habs
    have hany : ¬ st.battles.any (fun q => q.1 == bid) := by
      intro ha
      obtain ⟨b2, hb2⟩ := any_key_iff.1 ha
      rw [habs] at hb2
      cases hb2
    exact dirSet_eq_of_not_any hany

theorem createBattle_insert_semantics_witness :
    dirGet (handleCreateBattle "s1" "X" "u1" "A" "a1" initialState).1.battles "X" =
      some (Battle.mk "X" "X" (Player.mk "u1" (orAnonymous "A") "s1" "a1" 0) none false) ∧
    (handleCreateBattle "s1" "X" "u1" "A" "a1" initialState).1.battles =
      initialState.battles ++ [("X", Battle.mk "X" "X"
        (Player.mk "u1" (orAnonymous "A") "s1" "a1" 0) none false)] := by
  have h := createBattle_insert_semantics "s1" "X" "u1" "A" "a1" initialState
  exact ⟨h.1, h.2.2 rfl⟩

end ServerStick


namespace ServerStick.Db

theorem parseHex_hexDigit (n : Nat) (h : n < 16) : parseHex (hexDigit n) = some n := by
  interval_cases n <;> decide

theorem parseJString_cons_quote (tail : List Char) :
    parseJString ('"' :: tail) = some ([], tail) := by
  unfold parseJString
  simp

theorem parseJString_cons_escape (d e : Char) (tail s r : List Char)
    (hdu : d ≠ 'u') (hd : unescape d = some e)
    (h : parseJString tail = some (s, r)) :
    parseJString ('\\' :: d :: tail) = some (e :: s, r) := by
  unfold parseJString
  simp only [hdu, hd, h]
  simp

theorem parseJString_plain (c : Char) (tail s r : List Char)
    (h1 : c ≠ '"') (h2 : c ≠ '\\') (h3 : ¬ c.toNat < 32)
    (h : parseJString tail = some (s, r)) :
    parseJString (c :: tail) = some (c :: s, r) := by
  unfold parseJString
  simp only [h1, h2, h3, h]
  simp

theorem parseJString_cons_unicode (t : Nat) (ht : t < 32) (tail s r : List Char)
    (h : parseJString tail = some (s, r)) :
    parseJString ('\\' :: 'u' :: '0' :: '0' ::
        hexDigit (t / 16) :: hexDigit (t % 16) :: tail) =
      some (Char.ofNat t :: s, r) := by
  unfold parseJString
  simp [show parseHex '0' = some 0 from by decide,
        parseHex_hexDigit (t / 16) (by omega), parseHex_hexDigit (t % 16) (by omega),
        show t < 55296 from by omega, h]
  constructor
  · left
    omega
  · have ht2 : t / 16 * 16 + t % 16 = t := by omega
    rw [ht2]

theorem parseJString_escape (s rest : List Char) :
    parseJString (escapeData s ++ ('"' :: rest)) = some (s, rest) := by
  induction s with
  | nil => exact parseJString_cons_quote rest
  | cons c cs ih =>
      have hstep : escapeData (c :: cs) ++ ('"' :: rest) =
          escapeChar c ++ (escapeData cs ++ ('"' :: rest)) := by
        simp [escapeData, List.append_assoc]
      rw [hstep]
      unfold escapeChar
      split_ifs with h1 h2 h3 h4 h5 h6 h7 h8
      · subst h1
        exact parseJString_cons_escape '"' '"' _ cs rest (by decide) (by decide) ih
      · subst h2
        exact parseJString_cons_escape '\\' '\\' _ cs rest (by decide) (by decide) ih
      · subst h3
        exact parseJString_cons_escape 'b' (Char.ofNat 8) _ cs rest (by decide) (by decide) ih
      · subst h4
        exact parseJString_cons_escape 'f' (Char.ofNat 12) _ cs rest (by decide) (by decide) ih
      · subst h5
        exact parseJString_cons_escape 'n' '\n' _ cs rest (by decide) (by decide) ih
      · subst h6
        exact parseJString_cons_escape 'r' (Char.ofNat 13) _ cs rest (by decide) (by decide) ih
      · subst h7
        exact parseJString_cons_escape 't' '\t' _ cs rest (by decide) (by decide) ih
      · have hu := parseJString_cons_unicode c.toNat h8
          (escapeData cs ++ ('"' :: rest)) cs rest ih
        rw [Char.ofNat_toNat] at hu
        exact hu
      · exact parseJString_plain c _ cs rest h1 h2 h8 ih

theorem parseElems_encodeElems (ms : List String) : ∀ (m : String) (fuel : Nat),
    ms.length + 1 ≤ fuel →
    parseElems fuel (encodeElems m ms) = some (m :: ms, []) := by
  induction ms with
  | nil =>
      intro m fuel hf
      obtain ⟨f, rfl⟩ : ∃ f, fuel = f + 1 := ⟨fuel - 1, by omega⟩
      have he : encodeElems m [] = '"' :: (escapeData m.data ++ ('"' :: [']'])) := by
        simp [encodeElems, encodeString, List.append_assoc]
      rw [he]
      unfold parseElems
      simp [parseJString_escape m.data [']']]
  | cons m2 ms2 ih =>
      intro m fuel hf
      obtain ⟨f, rfl⟩ : ∃ f, fuel = f + 1 := ⟨fuel - 1, by omega⟩
      have hf2 : ms2.length + 1 ≤ f := by
        simp only [List.length_cons] at hf
        omega
      have he : encodeElems m (m2 :: ms2) =
          '"' :: (escapeData m.data ++ ('"' :: (',' :: encodeElems m2 ms2))) := by
        simp [encodeElems, encodeString, List.append_assoc]
      rw [he]
      unfold parseElems
      simp [parseJString_escape m.data (',' :: encodeElems m2 ms2), ih m2 f hf2]

theorem encodeElems_length (m : String) (ms : List String) :
    ms.length + 1 ≤ (encodeElems m ms).length := by
  induction ms generalizing m with
  | nil =>
      simp [encodeElems]
  | cons m2 ms2 ih =>
      simp only [encodeElems, List.length_append, List.length_cons]
      have := ih m2
      omega

theorem encodeElems_ne_single_bracket (m : String) (ms : List String) :
    encodeElems m ms ≠ [']'] := by
  cases ms <;> simp [encodeElems, encodeString]

theorem jsonParseMoves_stringify (moves : List String) :
    jsonParseMoves (jsonStringifyMoves moves) = some moves := by
  cases moves with
  | nil => rfl
  | cons m ms =>
      have hb : jsonParseMoves (jsonStringifyMoves (m :: ms)) =
          (if encodeElems m ms = [']'] then some []
           else finishParse (parseElems (encodeElems m ms).length (encodeElems m ms))) := rfl
      rw [hb, if_neg (encodeElems_ne_single_bracket m ms),
          parseElems_encodeElems ms m (encodeElems m ms).length (encodeElems_length m ms)]
      rfl

end ServerStick.Db

namespace ServerStick.Db

theorem mapM_decodeRow_mem (l : List BattleRow)
    (h : ∀ x ∈ l, (decodeRow x).isSome) :
    ∃ ys, l.mapM decodeRow = some ys ∧
      ∀ x ∈ l, ∀ y, decodeRow x = some y → y ∈ ys := by
  induction l with
  | nil => exact ⟨[], rfl, by simp⟩
  | cons a l2 ih =>
      obtain ⟨ya, hya⟩ := Option.isSome_iff_exists.1 (h a (List.mem_cons_self _ _))
      obtain ⟨ys, hys, hmem⟩ := ih (fun x hx => h x (List.mem_cons_of_mem _ hx))
      refine ⟨ya :: ys, ?_, ?_⟩
      · rw [List.mapM_cons, hya, hys]
        rfl
      · intro x hx y hy
        rcases List.mem_cons.1 hx with rfl | hx2
        · rw [hya] at hy
          rw [← Option.some_inj.1 hy]
          exact List.mem_cons_self _ _
        · exact List.mem_cons_of_mem _ (hmem x hx2 y hy)

theorem decodeRow_rowOfRecord (b : BlobBattleRecord) :
    decodeRow (rowOfRecord b) = some
      { id := b.id, player1 := b.player1, player2 := b.player2,
        winner := b.winner, date := b.date, moves := b.moves } := by
  unfold decodeRow rowOfRecord
  simp [jsonParseMoves_stringify]

theorem recordBattle_getRecent_roundtrip
    (tbl : BattleTable) (b : BlobBattleRecord) (m1 m2 m3 : String)
    (hmoves : b.moves = [m1, m2, m3])
    (hfresh : ∀ r ∈ tbl, r.id ≠ b.id)
    (hlen : tbl.length < 10)
    (hdec : ∀ r ∈ tbl, (decodeRow r).isSome) :
    ∃ tbl2, recordBattle tbl b = some tbl2 ∧
      ∃ recs, getRecentBattles tbl2 = some recs ∧
        ∃ rec, rec ∈ recs ∧ rec.id = b.id ∧ rec.moves = [m1, m2, m3] := by
  have hany : ¬ tbl.any (fun r => r.id == b.id) := by
    intro ha
    obtain ⟨r, hr, hre⟩ := List.any_eq_true.1 ha
    exact hfresh r hr (by simpa using hre)
  refine ⟨tbl ++ [rowOfRecord b], ?_, ?_⟩
  · unfold recordBattle
    rw [if_neg hany]
  · have hperm : List.Perm (recentRows (tbl ++ [rowOfRecord b])) (tbl ++ [rowOfRecord b]) := by
      unfold recentRows
      have hlen2 : ((tbl ++ [rowOfRecord b]).mergeSort
          (fun a b => decide (b.date ≤ a.date))).length ≤ 10 := by
        rw [List.length_mergeSort]
        simp only [List.length_append, List.length_cons, List.length_nil]
        omega
      rw [List.take_of_length_le hlen2]
      exact List.mergeSort_perm _ _
    have hall : ∀ x ∈ recentRows (tbl ++ [rowOfRecord b]), (decodeRow x).isSome := by
      intro x hx
      have hx2 : x ∈ tbl ++ [rowOfRecord b] := hperm.mem_iff.1 hx
      rcases List.mem_append.1 hx2 with hx3 | hx3
      · exact hdec x hx3
      · simp only [List.mem_singleton] at hx3
        subst hx3
        rw [decodeRow_rowOfRecord]
        rfl
    obtain ⟨ys, hys, hmem⟩ := mapM_decodeRow_mem _ hall
    refine ⟨ys, hys, ?_⟩
    have hrowmem : rowOfRecord b ∈ recentRows (tbl ++ [rowOfRecord b]) :=
      hperm.mem_iff.2 (List.mem_append.2 (Or.inr (List.mem_singleton.2 rfl)))
    refine ⟨_, hmem (rowOfRecord b) hrowmem _ (decodeRow_rowOfRecord b), rfl, ?_⟩
    exact hmoves

theorem recordBattle_getRecent_roundtrip_witness :
    ∃ tbl2, recordBattle []
        (BlobBattleRecord.mk "b1" "u1" "u2" (some "u1") 5 ["a", "b", "c"]) = some tbl2 ∧
      ∃ recs, getRecentBattles tbl2 = some recs ∧
        ∃ rec, rec ∈ recs ∧
          rec.id = (BlobBattleRecord.mk "b1" "u1" "u2" (some "u1") 5 ["a", "b", "c"]).id ∧
          rec.moves = ["a", "b", "c"] := by
  exact recordBattle_getRecent_roundtrip []
    (BlobBattleRecord.mk "b1" "u1" "u2" (some "u1") 5 ["a", "b", "c"])
    "a" "b" "c" rfl (by simp) (by simp) (by simp)

end ServerStick.Db
